import Mathlib

/-!
Verification of the resource-identifier resolution and access-review dispatch
logic of the OpenShift `who-can` command
(`pkg/cmd/admin/policy/who_can.go`).

The development shallowly embeds the two core routines:

* `resourceFor` — the three-tier resolution of a raw resource token into a
  `GroupVersionResource` (fully-qualified lookup, group-resource lookup,
  degenerate fallback);
* `whoCanOptions.run` — dispatch of the authorization query to the
  cluster-scoped or namespace-scoped review operation, followed by rendering
  of the textual report.

External collaborators (the REST mapper, the review client) are modelled as
explicit function-valued parameters.  Helper routines of the vendored
Kubernetes libraries that the command calls (`ParseResourceArg`,
`ParseGroupResource`, `GroupResource.WithVersion`,
`GroupVersionResource.IsEmpty`, `strings.ToLower`, `sets.String.List`,
`kapi.NamespaceAll`) are not part of the fragment's own sources and are
modelled from the specification, as indicated on their doc comments.
Side effects are made explicit: printing accumulates into a string, and the
review operations performed by `run` are recorded in a call trace.
-/

/-! ### Byte-wise lexicographic string order (model of Go `sort.Strings`) -/

/-- Lexicographic comparison of two character lists by code point, the order
used by Go's `sort.Strings` on the (ASCII) identifier strings at hand. -/
def charListLe : List Char → List Char → Bool
  | [], _ => true
  | _ :: _, [] => false
  | a :: as, b :: bs =>
    if a.toNat < b.toNat then true
    else if b.toNat < a.toNat then false
    else charListLe as bs

/-- Modelled from the spec: the "stable sorted order" on strings used when
rendering users/groups sets (Go `sort.Strings`): lexicographic by character. -/
def strLe (a b : String) : Bool := charListLe a.data b.data

theorem char_eq_of_toNat_eq {a b : Char} (h : a.toNat = b.toNat) : a = b := by
  apply Char.ext
  exact UInt32.toNat.inj h

theorem charListLe_total (a b : List Char) : charListLe a b = true ∨ charListLe b a = true := by
  induction a generalizing b with
  | nil => left; rfl
  | cons x xs ih =>
    cases b with
    | nil => right; rfl
    | cons y ys =>
      by_cases h1 : x.toNat < y.toNat
      · left; simp [charListLe, h1]
      · by_cases h2 : y.toNat < x.toNat
        · right; simp [charListLe, h2]
        · rcases ih ys with h | h
          · left; simp [charListLe, h1, h2, h]
          · right; simp [charListLe, h1, h2, h]

theorem charListLe_trans {a b c : List Char} (h1 : charListLe a b = true)
    (h2 : charListLe b c = true) : charListLe a c = true := by
  induction a generalizing b c with
  | nil => rfl
  | cons x xs ih =>
    cases b with
    | nil => simp [charListLe] at h1
    | cons y ys =>
      cases c with
      | nil => simp [charListLe] at h2
      | cons z zs =>
        simp only [charListLe] at h1 h2 ⊢
        split at h1
        · rename_i hxy
          split at h2
          · rename_i hyz
            rw [if_pos (by omega)]
          · split at h2
            · exact absurd h2 (by simp)
            · rename_i hyz hzy
              rw [if_pos (by omega)]
        · split at h1
          · exact absurd h1 (by simp)
          · rename_i hxy hyx
            split at h2
            · rename_i hyz
              rw [if_pos (by omega)]
            · split at h2
              · exact absurd h2 (by simp)
              · rename_i hyz hzy
                rw [if_neg (by omega), if_neg (by omega)]
                exact ih h1 h2

theorem charListLe_antisymm {a b : List Char} (h1 : charListLe a b = true)
    (h2 : charListLe b a = true) : a = b := by
  induction a generalizing b with
  | nil =>
    cases b with
    | nil => rfl
    | cons y ys => simp [charListLe] at h2
  | cons x xs ih =>
    cases b with
    | nil => simp [charListLe] at h1
    | cons y ys =>
      simp only [charListLe] at h1 h2
      split at h1
      · rename_i hxy
        rw [if_neg (by omega), if_pos (by omega)] at h2
        exact absurd h2 (by simp)
      · split at h1
        · exact absurd h1 (by simp)
        · rename_i hxy hyx
          rw [if_neg (by omega), if_neg (by omega)] at h2
          have hc : x = y := char_eq_of_toNat_eq (by omega)
          rw [hc, ih h1 h2]

instance strLeTotal : IsTotal String (fun a b => strLe a b = true) :=
  ⟨fun a b => charListLe_total a.data b.data⟩

instance strLeIsTrans : IsTrans String (fun a b => strLe a b = true) :=
  ⟨fun _ _ _ h1 h2 => charListLe_trans h1 h2⟩

instance strLeAntisymm : IsAntisymm String (fun a b => strLe a b = true) :=
  ⟨fun a b h1 h2 => by
    cases a; cases b
    exact congrArg String.mk (charListLe_antisymm h1 h2)⟩

/-! ### Character-level string helpers (models of Go `strings` routines) -/

/-- Modelled from the spec: ASCII lowercasing of the token ("Lowercase the
token", §4.1 step 1; Go `strings.ToLower`).  Extensionally equal to Lean's
own `String.toLower` (see `strToLower_eq_toLower`); spelled out over the
character list so that it evaluates by kernel reduction. -/
def strToLower (s : String) : String := String.mk (s.data.map Char.toLower)

theorem strToLower_eq_toLower (s : String) : strToLower s = s.toLower := by
  show String.mk (s.data.map Char.toLower) = String.map Char.toLower s
  rw [String.map_eq]

/-- Splitting a character list at every dot; a faithful model of the
dot-indexing arithmetic done by Go `strings.SplitN`, `strings.Index` and
`strings.Count` on the resource token.  The result always has one more
segment than the list has dots. -/
def splitDots : List Char → List (List Char)
  | [] => [[]]
  | c :: cs =>
    if c = '.' then [] :: splitDots cs
    else
      match splitDots cs with
      | [] => [[c]]
      | p :: ps => (c :: p) :: ps

/-- Re-joining dot-separated segments (Go slicing `gr[i+1:]` after the first
dot, or the third result of `strings.SplitN(arg, ".", 3)`). -/
def joinDots (segs : List (List Char)) : String := String.mk (List.intercalate ['.'] segs)

theorem splitDots_ne_nil (l : List Char) : splitDots l ≠ [] := by
  cases l with
  | nil => simp [splitDots]
  | cons c cs =>
    simp only [splitDots]
    split
    · simp
    · split
      · simp
      · simp

theorem splitDots_no_dot {l : List Char} (h : '.' ∉ l) : splitDots l = [l] := by
  induction l with
  | nil => rfl
  | cons c cs ih =>
    have hc : ¬ c = '.' := fun hc => h (by rw [hc]; exact List.mem_cons_self _ _)
    have hcs : '.' ∉ cs := fun hm => h (List.mem_cons_of_mem _ hm)
    rw [splitDots, if_neg hc, ih hcs]

/-! ### Data model -/

/-- Canonical versioned resource reference (`unversioned.GroupVersionResource`).
Modelled from the spec: the triple `{group, version, resource}`; the all-blank
value is the sentinel "empty" state used to detect resolution failure. -/
structure GroupVersionResource where
  Group : String := ""
  Version : String := ""
  Resource : String := ""
deriving DecidableEq

/-- Group-resource pair (`unversioned.GroupResource`).  Modelled from the
spec: the degraded form of a reference with the version omitted, used as the
fallback lookup key. -/
structure GroupResource where
  Group : String := ""
  Resource : String := ""
deriving DecidableEq

/-- Modelled from the spec: `GroupResource.WithVersion` attaches a version to
a group-resource pair, producing a full reference. -/
def GroupResource.WithVersion (gr : GroupResource) (v : String) : GroupVersionResource :=
  { Group := gr.Group, Version := v, Resource := gr.Resource }

/-- Modelled from the spec: a reference is empty when all three fields are
blank ("'Empty' is a valid sentinel state (all fields blank)"). -/
def GroupVersionResource.IsEmpty (gvr : GroupVersionResource) : Bool :=
  gvr.Group == "" && gvr.Version == "" && gvr.Resource == ""

/-- Modelled from the spec: `unversioned.ParseGroupResource` — "resource plus
optional dotted group suffix, no version"; the resource is the part before
the first dot, the group everything after it. -/
def ParseGroupResource (s : String) : GroupResource :=
  match splitDots s.data with
  | [] => { Group := "", Resource := s }
  | [_] => { Group := "", Resource := s }
  | p :: rest => { Group := joinDots rest, Resource := String.mk p }

/-- Modelled from the spec: `unversioned.ParseResourceArg` — attempt to parse
the token as a fully-qualified `resource.version.group` reference (which
requires at least two dots, the group itself possibly containing further
dots), and always also parse it as a bare group-resource. -/
def ParseResourceArg (s : String) : Option GroupVersionResource × GroupResource :=
  let fullySpecified : Option GroupVersionResource :=
    match splitDots s.data with
    | p0 :: p1 :: p2 :: rest =>
      some { Group := joinDots (p2 :: rest), Version := String.mk p1, Resource := String.mk p0 }
    | _ => none
  (fullySpecified, ParseGroupResource s)

/-- The external REST mapper capability.  Modelled from the spec:
`ResourceFor(partial-reference) -> (full-reference, error)`; the error is
`none` on success. -/
def Mapper : Type := GroupVersionResource → GroupVersionResource × Option String

/-- Embedding of `resourceFor` (who_can.go, lines 75-90): lowercase the token,
try the fully-qualified interpretation (discarding any mapper error), fall
back to the group-resource lookup with empty version when the result is
empty, and degrade to `{Resource: token}` when that lookup errors. -/
def resourceFor (mapper : Mapper) (resourceArg : String) : GroupVersionResource :=
  let gvr : GroupVersionResource :=
    match (ParseResourceArg (strToLower resourceArg)).1 with
    | some fullySpecifiedGVR => (mapper fullySpecifiedGVR).1
    | none => {}
  if gvr.IsEmpty then
    match mapper ((ParseResourceArg (strToLower resourceArg)).2.WithVersion "") with
    | (_, some _) => { Resource := resourceArg }
    | (gvr2, none) => gvr2
  else gvr

/-! ### Review dispatch and report rendering -/

/-- The request payload (`authorizationapi.AuthorizationAttributes`). -/
structure AuthorizationAttributes where
  Verb : String
  Group : String
  Resource : String
deriving DecidableEq

/-- Cluster-scoped review request envelope (`authorizationapi.ResourceAccessReview`). -/
structure ResourceAccessReview where
  Action : AuthorizationAttributes
deriving DecidableEq

/-- Namespace-scoped review request envelope (`authorizationapi.LocalResourceAccessReview`). -/
structure LocalResourceAccessReview where
  Action : AuthorizationAttributes
deriving DecidableEq

/-- Review response (`authorizationapi.ResourceAccessReviewResponse`).
`Users` and `Groups` model the string sets by listing their elements in
arrival order. -/
structure ResourceAccessReviewResponse where
  Namespace : String := ""
  Users : List String := []
  Groups : List String := []
deriving DecidableEq

/-- The external reviewer capability: the cluster-scoped and the
namespace-scoped review operation, each returning a response and an optional
error (`none` on success). -/
structure Reviewer where
  clusterReview : ResourceAccessReview → ResourceAccessReviewResponse × Option String
  localReview : String → LocalResourceAccessReview → ResourceAccessReviewResponse × Option String

/-- One recorded invocation of a review operation. -/
inductive ReviewCall where
  | clusterScoped (req : ResourceAccessReview)
  | namespaceScoped (ns : String) (req : LocalResourceAccessReview)
deriving DecidableEq

/-- Options of the command (`whoCanOptions`); the client is passed to `run`
explicitly as a `Reviewer`. -/
structure whoCanOptions where
  allNamespaces : Bool
  bindingNamespace : String
  verb : String
  resource : GroupVersionResource

/-- Modelled from the spec: the sentinel "all namespaces" marker
(`kapi.NamespaceAll`, the empty namespace string). -/
def NamespaceAll : String := ""

/-- Modelled from the spec: `sets.String.List()` — the set's entries in the
stable sorted order. -/
def setList (s : List String) : List String :=
  List.insertionSort (fun a b => strLe a b = true) s

/-- Continuation-indented newline join used for multi-entry user/group lists
(`strings.Join(..., "\n        ")`). -/
def joinIndent (l : List String) : String := String.intercalate "\n        " l

/-- The Namespace line of the report (who_can.go, lines 111-115). -/
def namespaceSection (ns : String) : String :=
  if ns = NamespaceAll then "Namespace: <all>\n" else "Namespace: " ++ ns ++ "\n"

/-- The Verb line of the report (who_can.go, line 122). -/
def verbSection (verb : String) : String := "Verb:      " ++ verb ++ "\n"

/-- Resource display name: `resource` alone, or `resource.group` when the
group is non-empty (who_can.go, lines 117-120). -/
def resourceDisplay (res : GroupVersionResource) : String :=
  if res.Group.length > 0 then res.Resource ++ "." ++ res.Group else res.Resource

/-- The Resource section of the report (who_can.go, line 123). -/
def resourceSection (display : String) : String := "Resource:  " ++ display ++ "\n\n"

/-- The Users section of the report (who_can.go, lines 124-128). -/
def usersSection (users : List String) : String :=
  if users.length = 0 then "Users:  none\n\n"
  else "Users:  " ++ joinIndent (setList users) ++ "\n\n"

/-- The Groups section of the report (who_can.go, lines 130-134). -/
def groupsSection (groups : List String) : String :=
  if groups.length = 0 then "Groups: none\n\n"
  else "Groups: " ++ joinIndent (setList groups) ++ "\n\n"

/-- The full report printed on a successful review (who_can.go, lines 111-134). -/
def renderReport (o : whoCanOptions) (resp : ResourceAccessReviewResponse) : String :=
  namespaceSection resp.Namespace ++ verbSection o.verb
    ++ resourceSection (resourceDisplay o.resource)
    ++ usersSection resp.Users ++ groupsSection resp.Groups

/-- Result of one invocation of `run`: the review operations performed, the
text printed, and the returned error (if any). -/
structure RunResult where
  calls : List ReviewCall
  printed : String
  err : Option String
deriving DecidableEq

/-- Embedding of `whoCanOptions.run` (who_can.go, lines 93-137): build the
authorization attributes, invoke exactly one review operation according to
`allNamespaces`, propagate its error unchanged (printing nothing), and
otherwise print the report. -/
def whoCanOptions.run (o : whoCanOptions) (reviewer : Reviewer) : RunResult :=
  let authorizationAttributes : AuthorizationAttributes :=
    { Verb := o.verb, Group := o.resource.Group, Resource := o.resource.Resource }
  if o.allNamespaces then
    match reviewer.clusterReview { Action := authorizationAttributes } with
    | (_, some e) =>
      { calls := [ReviewCall.clusterScoped { Action := authorizationAttributes }],
        printed := "", err := some e }
    | (resp, none) =>
      { calls := [ReviewCall.clusterScoped { Action := authorizationAttributes }],
        printed := renderReport o resp, err := none }
  else
    match reviewer.localReview o.bindingNamespace { Action := authorizationAttributes } with
    | (_, some e) =>
      { calls := [ReviewCall.namespaceScoped o.bindingNamespace { Action := authorizationAttributes }],
        printed := "", err := some e }
    | (resp, none) =>
      { calls := [ReviewCall.namespaceScoped o.bindingNamespace { Action := authorizationAttributes }],
        printed := renderReport o resp, err := none }

/-- The authorization attributes `run` builds from its options. -/
def authorizationAttributesOf (o : whoCanOptions) : AuthorizationAttributes :=
  { Verb := o.verb, Group := o.resource.Group, Resource := o.resource.Resource }

/-! ### Character facts about ASCII lowercasing -/

theorem toNat_toLower (c : Char) :
    (Char.toLower c).toNat = if 65 ≤ c.toNat ∧ c.toNat ≤ 90 then c.toNat + 32 else c.toNat := by
  unfold Char.toLower
  split
  · rename_i h
    rw [if_pos (by omega)]
    have hv : Char.isValidCharNat (c.toNat + 32) := Or.inl (by omega)
    rw [Char.ofNat, dif_pos hv]
    rfl
  · rename_i h
    rw [if_neg (by omega)]

theorem isUpper_toNat {c : Char} (h : c.isUpper = true) : 65 ≤ c.toNat ∧ c.toNat ≤ 90 := by
  simp only [Char.isUpper, Bool.and_eq_true, decide_eq_true_eq, ge_iff_le] at h
  obtain ⟨h1, h2⟩ := h
  rw [UInt32.le_def, BitVec.le_def] at h1 h2
  exact ⟨h1, h2⟩

theorem toLower_ne_of_isUpper {c : Char} (h : c.isUpper = true) : Char.toLower c ≠ c := by
  intro heq
  have h2 := isUpper_toNat h
  have h3 := toNat_toLower c
  rw [heq, if_pos h2] at h3
  omega

theorem toLower_eq_dot {c : Char} (h : Char.toLower c = '.') : c = '.' := by
  have h3 := toNat_toLower c
  rw [h] at h3
  have hdot : ('.' : Char).toNat = 46 := by decide
  rw [hdot] at h3
  split at h3
  · omega
  · exact char_eq_of_toNat_eq (by rw [hdot]; omega)

theorem no_dot_map_toLower {l : List Char} (h : '.' ∉ l) : '.' ∉ l.map Char.toLower := by
  intro hm
  obtain ⟨c, hc, heq⟩ := List.mem_map.mp hm
  exact h (toLower_eq_dot heq ▸ hc)

theorem map_eq_self_of_mem {l : List Char} {f : Char → Char} (h : l.map f = l) :
    ∀ c ∈ l, f c = c := by
  induction l with
  | nil => intro c hc; cases hc
  | cons a as ih =>
    intro c hc
    rw [List.map_cons, List.cons_eq_cons] at h
    rcases List.mem_cons.mp hc with hc | hc
    · rw [hc]; exact h.1
    · exact ih h.2 c hc

/-! ### Claim theorems: the resolver -/

/-- Shared helper: when every fully-qualified interpretation yields an empty
mapper result and the group-resource lookup errors, `resourceFor` returns the
degenerate reference built from the original argument. -/
theorem resourceFor_degenerate (mapper : Mapper) (arg : String)
    (h1 : ∀ fq, (ParseResourceArg (strToLower arg)).1 = some fq → ((mapper fq).1).IsEmpty = true)
    (e : String)
    (h2 : (mapper ((ParseResourceArg (strToLower arg)).2.WithVersion "")).2 = some e) :
    resourceFor mapper arg = { Group := "", Version := "", Resource := arg } := by
  rcases hm : mapper ((ParseResourceArg (strToLower arg)).2.WithVersion "") with ⟨g, err⟩
  rw [hm] at h2
  simp only at h2
  subst h2
  cases hp : (ParseResourceArg (strToLower arg)).1 with
  | none =>
    simp only [resourceFor, hp, hm]
    rw [if_pos (by decide)]
  | some fq =>
    have hemp := h1 fq hp
    simp only [resourceFor, hp, hemp, if_true, hm]

/-- C1: resolution is total — whenever the fully-qualified lookup fails (the
token does not parse as fully qualified, or the mapper returns the empty
reference for it) and the group-resource lookup returns an error, `resourceFor`
returns the degenerate reference whose `Resource` field is the token and whose
`Group` and `Version` fields are empty; being a total Lean function, it can
neither raise an error nor abort. -/
theorem c1_resolution_total (mapper : Mapper) (arg : String)
    (h1 : ∀ fq, (ParseResourceArg (strToLower arg)).1 = some fq → ((mapper fq).1).IsEmpty = true)
    (e : String)
    (h2 : (mapper ((ParseResourceArg (strToLower arg)).2.WithVersion "")).2 = some e) :
    resourceFor mapper arg = { Group := "", Version := "", Resource := arg } :=
  resourceFor_degenerate mapper arg h1 e h2

/-- C1 witness: an always-failing mapper on the token `"pods"`. -/
theorem c1_resolution_total_witness :
    ((fun _ => ({}, some "no match") : Mapper) ((ParseResourceArg (strToLower "pods")).2.WithVersion "")).2 = some "no match" ∧
    resourceFor (fun _ => ({}, some "no match")) "pods" = { Group := "", Version := "", Resource := "pods" } :=
  ⟨rfl, c1_resolution_total (fun _ => ({}, some "no match")) "pods" (fun _ _ => rfl) "no match" rfl⟩

/-- Shared helper: when the token parses as fully qualified and the mapper's
answer for that fully-qualified reference is non-empty, `resourceFor` returns
exactly that answer, whatever the accompanying error and whatever the mapper
would say on any other query. -/
theorem resourceFor_fully_qualified (mapper : Mapper) (arg : String)
    (fq : GroupVersionResource)
    (hparse : (ParseResourceArg (strToLower arg)).1 = some fq)
    (hne : ((mapper fq).1).IsEmpty = false) :
    resourceFor mapper arg = (mapper fq).1 := by
  simp only [resourceFor, hparse, hne]
  rw [if_neg (by simp [hne])]

/-- C2: a token recognized as fully specified takes strict precedence — when
the token parses as a fully-qualified `resource.version.group` reference and
the mapper returns a non-empty reference for it, `resourceFor` returns that
mapper result; the group-resource fallback is never consulted (any mapper
agreeing on the fully-qualified query produces the same resolution), and
whenever the mapper's answer carries the explicitly requested version, so does
the resolution. -/
theorem c2_fully_qualified_precedence (mapper : Mapper) (arg : String)
    (fq : GroupVersionResource)
    (hparse : (ParseResourceArg (strToLower arg)).1 = some fq)
    (hrecognized : ((mapper fq).1).IsEmpty = false) :
    resourceFor mapper arg = (mapper fq).1 ∧
    (∀ mapper2 : Mapper, mapper2 fq = mapper fq →
      resourceFor mapper2 arg = (mapper fq).1) ∧
    ((mapper fq).1.Version = fq.Version → (resourceFor mapper arg).Version = fq.Version) := by
  refine ⟨resourceFor_fully_qualified mapper arg fq hparse hrecognized, ?_, ?_⟩
  · intro mapper2 h2
    have := resourceFor_fully_qualified mapper2 arg fq hparse (by rw [h2]; exact hrecognized)
    rw [this, h2]
  · intro hv
    rw [resourceFor_fully_qualified mapper arg fq hparse hrecognized, hv]

/-- C2 witness: the identity mapper on the fully-qualified token `"a.v1.grp"`. -/
theorem c2_fully_qualified_precedence_witness :
    (ParseResourceArg (strToLower "a.v1.grp")).1 =
      some { Group := "grp", Version := "v1", Resource := "a" } ∧
    (((fun g => (g, none) : Mapper) { Group := "grp", Version := "v1", Resource := "a" }).1).IsEmpty = false ∧
    resourceFor (fun g => (g, none)) "a.v1.grp" =
      ((fun g => (g, none) : Mapper) { Group := "grp", Version := "v1", Resource := "a" }).1 :=
  ⟨by decide, by decide,
    (c2_fully_qualified_precedence (fun g => (g, none)) "a.v1.grp"
      { Group := "grp", Version := "v1", Resource := "a" } (by decide) (by decide)).1⟩

/-- C10: the error of the fully-qualified lookup is discarded — when the
token parses as fully qualified and the mapper returns a non-empty reference
together with an error, that reference is still accepted as the resolution,
and the group-resource fallback is not consulted (any mapper agreeing on the
fully-qualified query produces the same resolution). -/
theorem c10_fq_error_discarded (mapper : Mapper) (arg : String)
    (fq result : GroupVersionResource) (e : String)
    (hparse : (ParseResourceArg (strToLower arg)).1 = some fq)
    (hmap : mapper fq = (result, some e))
    (hne : result.IsEmpty = false) :
    resourceFor mapper arg = result ∧
    (∀ mapper2 : Mapper, mapper2 fq = mapper fq → resourceFor mapper2 arg = result) := by
  have hr : (mapper fq).1 = result := by rw [hmap]
  constructor
  · rw [resourceFor_fully_qualified mapper arg fq hparse (by rw [hr]; exact hne), hr]
  · intro mapper2 h2
    rw [resourceFor_fully_qualified mapper2 arg fq hparse
      (by rw [h2, hr]; exact hne), h2, hr]

/-- C10 witness: a mapper answering the fully-qualified query `"a.v1.grp"`
with a non-empty reference and an error. -/
theorem c10_fq_error_discarded_witness :
    (ParseResourceArg (strToLower "a.v1.grp")).1 =
      some { Group := "grp", Version := "v1", Resource := "a" } ∧
    ((fun _ => ({ Group := "grp", Version := "v1", Resource := "as" }, some "ambiguous") : Mapper)
        { Group := "grp", Version := "v1", Resource := "a" } =
      ({ Group := "grp", Version := "v1", Resource := "as" }, some "ambiguous")) ∧
    resourceFor (fun _ => ({ Group := "grp", Version := "v1", Resource := "as" }, some "ambiguous"))
        "a.v1.grp" =
      { Group := "grp", Version := "v1", Resource := "as" } :=
  ⟨by decide, rfl,
    (c10_fq_error_discarded
      (fun _ => ({ Group := "grp", Version := "v1", Resource := "as" }, some "ambiguous"))
      "a.v1.grp" { Group := "grp", Version := "v1", Resource := "a" }
      { Group := "grp", Version := "v1", Resource := "as" } "ambiguous"
      (by decide) rfl (by decide)).1⟩

/-- C6: a token containing no dot is never given the fully-qualified
interpretation — it parses as a bare resource with empty group, is looked up
only through the group-resource strategy with empty version, and on mapper
failure the degenerate result has empty group and the token itself as
resource. -/
theorem c6_no_dot_bare_resource (mapper : Mapper) (arg : String)
    (hnodot : '.' ∉ arg.data) :
    (ParseResourceArg (strToLower arg)).1 = none ∧
    (ParseResourceArg (strToLower arg)).2 = { Group := "", Resource := strToLower arg } ∧
    ((mapper { Group := "", Version := "", Resource := strToLower arg }).2 = none →
      resourceFor mapper arg =
        (mapper { Group := "", Version := "", Resource := strToLower arg }).1) ∧
    (∀ e, (mapper { Group := "", Version := "", Resource := strToLower arg }).2 = some e →
      resourceFor mapper arg = { Group := "", Version := "", Resource := arg }) := by
  have hdata : (strToLower arg).data = arg.data.map Char.toLower := rfl
  have hnd : '.' ∉ (strToLower arg).data := by
    rw [hdata]; exact no_dot_map_toLower hnodot
  have hsplit : splitDots (strToLower arg).data = [(strToLower arg).data] :=
    splitDots_no_dot hnd
  have hfq : (ParseResourceArg (strToLower arg)).1 = none := by
    simp only [ParseResourceArg, hsplit]
  have hgr : (ParseResourceArg (strToLower arg)).2 =
      { Group := "", Resource := strToLower arg } := by
    simp only [ParseResourceArg, ParseGroupResource, hsplit]
  have hkey : (ParseResourceArg (strToLower arg)).2.WithVersion "" =
      { Group := "", Version := "", Resource := strToLower arg } := by
    rw [hgr]; rfl
  refine ⟨hfq, hgr, ?_, ?_⟩
  · intro hok
    rcases hm : mapper { Group := "", Version := "", Resource := strToLower arg } with ⟨g, err⟩
    rw [hm] at hok
    simp only at hok
    subst hok
    simp only [resourceFor, hfq, hkey, hm]
    rw [if_pos (by decide)]
  · intro e herr
    exact resourceFor_degenerate mapper arg (fun fq hp => absurd hp (by rw [hfq]; simp)) e
      (by rw [hkey]; exact herr)

/-- C6 witness: the dotless token `"pods"` with an always-failing mapper. -/
theorem c6_no_dot_bare_resource_witness :
    ('.' ∉ ("pods" : String).data) ∧
    ((fun _ => ({}, some "no match") : Mapper)
        { Group := "", Version := "", Resource := strToLower "pods" }).2 = some "no match" ∧
    resourceFor (fun _ => ({}, some "no match")) "pods" =
      { Group := "", Version := "", Resource := "pods" } :=
  ⟨by decide, rfl,
    (c6_no_dot_bare_resource (fun _ => ({}, some "no match")) "pods" (by decide)).2.2.2
      "no match" rfl⟩

/-- C9: the token is lowercased only for parsing and mapper lookups — when
every strategy fails, the degenerate reference carries the original argument
with its original casing, so for a token containing an uppercase letter the
degenerate result's resource differs from the lowercased form used in the
lookups. -/
theorem c9_degenerate_keeps_casing (mapper : Mapper) (arg : String)
    (hupper : ∃ c ∈ arg.data, c.isUpper = true)
    (h1 : ∀ fq, (ParseResourceArg (strToLower arg)).1 = some fq → ((mapper fq).1).IsEmpty = true)
    (e : String)
    (h2 : (mapper ((ParseResourceArg (strToLower arg)).2.WithVersion "")).2 = some e) :
    resourceFor mapper arg = { Group := "", Version := "", Resource := arg } ∧
    arg ≠ strToLower arg := by
  refine ⟨resourceFor_degenerate mapper arg h1 e h2, ?_⟩
  intro heq
  obtain ⟨c, hc, hup⟩ := hupper
  have hdata : arg.data = arg.data.map Char.toLower := congrArg String.data heq
  have := map_eq_self_of_mem hdata.symm c hc
  exact toLower_ne_of_isUpper hup this

/-- C9 witness: the uppercase token `"PODS"` with an always-failing mapper. -/
theorem c9_degenerate_keeps_casing_witness :
    (∃ c ∈ ("PODS" : String).data, c.isUpper = true) ∧
    ((fun _ => ({}, some "no match") : Mapper)
        ((ParseResourceArg (strToLower "PODS")).2.WithVersion "")).2 = some "no match" ∧
    (resourceFor (fun _ => ({}, some "no match")) "PODS" =
      { Group := "", Version := "", Resource := "PODS" } ∧
    ("PODS" : String) ≠ strToLower "PODS") :=
  ⟨by decide, rfl,
    c9_degenerate_keeps_casing (fun _ => ({}, some "no match")) "PODS" (by decide)
      (fun _ _ => rfl) "no match" rfl⟩

/-! ### Claim theorems: dispatch -/

/-- C3: every invocation of `run` performs exactly one review operation — the
cluster-scoped one precisely when `allNamespaces` is true, the
namespace-scoped one (carrying `bindingNamespace`) precisely when it is
false — and the request envelope of either carries the authorization
attributes built from the options. -/
theorem c3_exactly_one_review (o : whoCanOptions) (reviewer : Reviewer) :
    (o.run reviewer).calls =
      [if o.allNamespaces then
        ReviewCall.clusterScoped { Action := authorizationAttributesOf o }
      else
        ReviewCall.namespaceScoped o.bindingNamespace { Action := authorizationAttributesOf o }] := by
  simp only [whoCanOptions.run, authorizationAttributesOf]
  cases hb : o.allNamespaces with
  | true =>
    simp only [if_true]
    rcases hr : reviewer.clusterReview
      { Action := { Verb := o.verb, Group := o.resource.Group, Resource := o.resource.Resource } }
      with ⟨resp, err⟩
    cases err <;> simp [hr]
  | false =>
    simp only [Bool.false_eq_true, if_false]
    rcases hr : reviewer.localReview o.bindingNamespace
      { Action := { Verb := o.verb, Group := o.resource.Group, Resource := o.resource.Resource } }
      with ⟨resp, err⟩
    cases err <;> simp [hr]

/-- C4: when the selected review operation returns an error, `run` returns
exactly that error and prints nothing — no part of the report is produced. -/
theorem c4_error_propagated (o : whoCanOptions) (reviewer : Reviewer) (e : String)
    (h : (if o.allNamespaces then
            reviewer.clusterReview { Action := authorizationAttributesOf o }
          else
            reviewer.localReview o.bindingNamespace { Action := authorizationAttributesOf o }).2
        = some e) :
    (o.run reviewer).err = some e ∧ (o.run reviewer).printed = "" ∧
    (o.run reviewer).calls.length = 1 := by
  simp only [authorizationAttributesOf] at h
  simp only [whoCanOptions.run]
  cases hb : o.allNamespaces with
  | true =>
    rw [hb] at h
    rw [if_pos rfl] at h ⊢
    rcases hr : reviewer.clusterReview
      { Action := { Verb := o.verb, Group := o.resource.Group, Resource := o.resource.Resource } }
      with ⟨resp, err⟩
    rw [hr] at h
    simp only at h
    subst h
    simp [hr]
  | false =>
    rw [hb] at h
    rw [if_neg (by simp)] at h ⊢
    rcases hr : reviewer.localReview o.bindingNamespace
      { Action := { Verb := o.verb, Group := o.resource.Group, Resource := o.resource.Resource } }
      with ⟨resp, err⟩
    rw [hr] at h
    simp only at h
    subst h
    simp [hr]

/-- Fixture: namespace-scoped options for the verb `get` on `pods`. -/
def optsLocal : whoCanOptions :=
  { allNamespaces := false, bindingNamespace := "default", verb := "get",
    resource := { Resource := "pods" } }

/-- Fixture: a reviewer whose namespace-scoped operation fails. -/
def failingReviewer : Reviewer :=
  { clusterReview := fun _ => ({}, some "boom"),
    localReview := fun _ _ => ({}, some "boom") }

/-- C4 witness: a failing namespace-scoped review on the `optsLocal` fixture. -/
theorem c4_error_propagated_witness :
    ((if optsLocal.allNamespaces then
        failingReviewer.clusterReview { Action := authorizationAttributesOf optsLocal }
      else
        failingReviewer.localReview optsLocal.bindingNamespace
          { Action := authorizationAttributesOf optsLocal }).2 = some "boom") ∧
    ((optsLocal.run failingReviewer).err = some "boom" ∧
      (optsLocal.run failingReviewer).printed = "" ∧
      (optsLocal.run failingReviewer).calls.length = 1) :=
  ⟨rfl, c4_error_propagated optsLocal failingReviewer "boom" rfl⟩

/-! ### Claim theorems: reporting -/

/-- C7: the Namespace line prints the literal `<all>` placeholder when the
response namespace equals the sentinel all-namespaces marker, and prints the
namespace string verbatim otherwise. -/
theorem c7_namespace_line (ns : String) :
    (ns = NamespaceAll → namespaceSection ns = "Namespace: <all>\n") ∧
    (ns ≠ NamespaceAll → namespaceSection ns = "Namespace: " ++ ns ++ "\n") ∧
    (ns ≠ "<all>" → (namespaceSection ns = "Namespace: <all>\n" ↔ ns = NamespaceAll)) := by
  refine ⟨?_, ?_, ?_⟩
  · intro h
    simp [namespaceSection, h]
  · intro h
    simp [namespaceSection, h]
  · intro hne
    constructor
    · intro hout
      by_contra hns
      rw [namespaceSection, if_neg hns] at hout
      have hd := congrArg String.data hout
      simp only [String.data_append] at hd
      simp at hd
      have h3 : ns.data = ['<', 'a', 'l', 'l', '>'] :=
        List.append_inj_left'
          (show ns.data ++ ['\n'] = ['<', 'a', 'l', 'l', '>'] ++ ['\n'] from hd) rfl
      exact hne (congrArg String.mk h3)
    · intro h
      simp [namespaceSection, h]

/-- C7 witness: the sentinel namespace and the namespace `"default"`. -/
theorem c7_namespace_line_witness :
    (NamespaceAll = NamespaceAll ∧ namespaceSection NamespaceAll = "Namespace: <all>\n") ∧
    (("default" : String) ≠ NamespaceAll ∧
      namespaceSection "default" = "Namespace: default\n") :=
  ⟨⟨rfl, (c7_namespace_line NamespaceAll).1 rfl⟩,
   ⟨by decide, (c7_namespace_line "default").2.1 (by decide)⟩⟩

/-- C5: the Users and Groups sections render the exact literal `none` on an
empty set, and otherwise render the set's entries newline-joined in sorted
order; the rendering is invariant under the order in which the entries
arrived, and the example set `{"zeta", "alpha"}` renders as `alpha` then
`zeta`. -/
theorem c5_sets_rendered_sorted (l l2 : List String) (hperm : List.Perm l l2) :
    usersSection l = usersSection l2 ∧
    groupsSection l = groupsSection l2 ∧
    usersSection [] = "Users:  none\n\n" ∧
    groupsSection [] = "Groups: none\n\n" ∧
    (l ≠ [] → usersSection l = "Users:  " ++ joinIndent (setList l) ++ "\n\n") ∧
    (l ≠ [] → groupsSection l = "Groups: " ++ joinIndent (setList l) ++ "\n\n") ∧
    List.Sorted (fun a b => strLe a b = true) (setList l) ∧
    List.Perm (setList l) l ∧
    groupsSection ["zeta", "alpha"] = "Groups: alpha\n        zeta\n\n" := by
  have hsort : setList l = setList l2 :=
    List.eq_of_perm_of_sorted
      (((List.perm_insertionSort _ l).trans hperm).trans
        (List.perm_insertionSort _ l2).symm)
      (List.sorted_insertionSort _ l) (List.sorted_insertionSort _ l2)
  have hlen : l.length = l2.length := hperm.length_eq
  refine ⟨?_, ?_, rfl, rfl, ?_, ?_, List.sorted_insertionSort _ l,
    List.perm_insertionSort _ l, by decide⟩
  · simp only [usersSection, hlen, hsort]
  · simp only [groupsSection, hlen, hsort]
  · intro h
    rw [usersSection, if_neg (by simp [List.length_eq_zero, h])]
  · intro h
    rw [groupsSection, if_neg (by simp [List.length_eq_zero, h])]

/-- C5 witness: the arrival orders `["zeta", "alpha"]` and `["alpha", "zeta"]`
of the same set. -/
theorem c5_sets_rendered_sorted_witness :
    List.Perm ["zeta", "alpha"] ["alpha", "zeta"] ∧
    (usersSection ["zeta", "alpha"] = usersSection ["alpha", "zeta"] ∧
    groupsSection ["zeta", "alpha"] = groupsSection ["alpha", "zeta"] ∧
    usersSection [] = "Users:  none\n\n" ∧
    groupsSection [] = "Groups: none\n\n" ∧
    ((["zeta", "alpha"] : List String) ≠ [] →
      usersSection ["zeta", "alpha"] =
        "Users:  " ++ joinIndent (setList ["zeta", "alpha"]) ++ "\n\n") ∧
    ((["zeta", "alpha"] : List String) ≠ [] →
      groupsSection ["zeta", "alpha"] =
        "Groups: " ++ joinIndent (setList ["zeta", "alpha"]) ++ "\n\n") ∧
    List.Sorted (fun a b => strLe a b = true) (setList ["zeta", "alpha"]) ∧
    List.Perm (setList ["zeta", "alpha"]) ["zeta", "alpha"] ∧
    groupsSection ["zeta", "alpha"] = "Groups: alpha\n        zeta\n\n") :=
  ⟨by decide, c5_sets_rendered_sorted ["zeta", "alpha"] ["alpha", "zeta"] (by decide)⟩

/-- A string ends with a blank line when its last two characters are both
newlines. -/
def endsWithBlankLine (s : String) : Prop := s.data.reverse.take 2 = ['\n', '\n']

instance (s : String) : Decidable (endsWithBlankLine s) := by
  unfold endsWithBlankLine
  infer_instance

theorem endsWithBlankLine_append (s : String) : endsWithBlankLine (s ++ "\n\n") := by
  show ((s ++ "\n\n").data.reverse.take 2) = ['\n', '\n']
  rw [String.data_append,
    show ("\n\n" : String).data = ['\n'] ++ ['\n'] from rfl,
    List.reverse_append, List.reverse_append]
  rfl

theorem not_endsWithBlankLine_line (a payload : String)
    (hlast : a.data.reverse.take 1 ≠ ['\n'])
    (hpayload : '\n' ∉ payload.data) :
    ¬ endsWithBlankLine (a ++ payload ++ "\n") := by
  intro h
  unfold endsWithBlankLine at h
  rw [String.data_append, String.data_append,
    show ("\n" : String).data = ['\n'] from rfl,
    List.reverse_append, List.reverse_append] at h
  simp only [List.reverse_cons, List.reverse_nil, List.nil_append, List.cons_append,
    List.take_succ_cons, List.cons.injEq, true_and] at h
  cases hrev : payload.data.reverse with
  | nil =>
    rw [hrev, List.nil_append] at h
    exact hlast h
  | cons c rest =>
    rw [hrev, List.cons_append, List.take_succ_cons, List.take_zero] at h
    have hc : c = '\n' := (List.cons.injEq _ _ _ _).mp h |>.1
    have hmem : c ∈ payload.data := by
      rw [← List.mem_reverse, hrev]
      exact List.mem_cons_self _ _
    exact hpayload (hc ▸ hmem)

/-- C8 counterexample: on the spec's own end-to-end input (verb `get`,
resource `pods`, namespace `default`, users `{alice}`, empty groups) the
report printed by `run` carries a trailing blank line after the Resource
section as well, so it is not the claimed text whose only blank lines follow
the Users and Groups sections. -/
theorem c8_counterexample :
    (whoCanOptions.run
        { allNamespaces := false, bindingNamespace := "default", verb := "get",
          resource := { Resource := "pods" } }
        { clusterReview := fun _ => ({}, some "unused"),
          localReview := fun _ _ =>
            ({ Namespace := "default", Users := ["alice"], Groups := [] }, none) }).printed =
      "Namespace: default\nVerb:      get\nResource:  pods\n\nUsers:  alice\n\nGroups: none\n\n" ∧
    (whoCanOptions.run
        { allNamespaces := false, bindingNamespace := "default", verb := "get",
          resource := { Resource := "pods" } }
        { clusterReview := fun _ => ({}, some "unused"),
          localReview := fun _ _ =>
            ({ Namespace := "default", Users := ["alice"], Groups := [] }, none) }).printed ≠
      "Namespace: default\nVerb:      get\nResource:  pods\nUsers:  alice\n\nGroups: none\n\n" ∧
    endsWithBlankLine (resourceSection (resourceDisplay { Resource := "pods" })) := by
  refine ⟨by decide, by decide, by decide⟩

/-- C8 (amended): on a successful review the report is exactly the five
sections in the fixed order Namespace, Verb, Resource, Users, Groups, and a
trailing blank line follows each of the last three sections (Resource, Users
and Groups) and neither of the first two (for any namespace and verb that do
not themselves contain a newline). -/
theorem c8_report_sections (o : whoCanOptions) (resp : ResourceAccessReviewResponse)
    (hN : '\n' ∉ resp.Namespace.data) (hV : '\n' ∉ o.verb.data) :
    renderReport o resp =
      namespaceSection resp.Namespace ++ verbSection o.verb
        ++ resourceSection (resourceDisplay o.resource)
        ++ usersSection resp.Users ++ groupsSection resp.Groups ∧
    endsWithBlankLine (resourceSection (resourceDisplay o.resource)) ∧
    endsWithBlankLine (usersSection resp.Users) ∧
    endsWithBlankLine (groupsSection resp.Groups) ∧
    ¬ endsWithBlankLine (namespaceSection resp.Namespace) ∧
    ¬ endsWithBlankLine (verbSection o.verb) := by
  refine ⟨rfl, endsWithBlankLine_append _, ?_, ?_, ?_, ?_⟩
  · unfold usersSection
    split
    · decide
    · exact endsWithBlankLine_append _
  · unfold groupsSection
    split
    · decide
    · exact endsWithBlankLine_append _
  · unfold namespaceSection
    split
    · decide
    · exact not_endsWithBlankLine_line "Namespace: " resp.Namespace (by decide) hN
  · exact not_endsWithBlankLine_line "Verb:      " o.verb (by decide) hV

/-- Fixture: the namespace-scoped review response for the spec's end-to-end
example (namespace `default`, users `{alice}`, no groups). -/
def okLocalResponse : ResourceAccessReviewResponse :=
  { Namespace := "default", Users := ["alice"], Groups := [] }

/-- C8 witness: the report for verb `get` on `pods` in namespace `default`. -/
theorem c8_report_sections_witness :
    ('\n' ∉ okLocalResponse.Namespace.data) ∧
    ('\n' ∉ optsLocal.verb.data) ∧
    (renderReport optsLocal okLocalResponse =
      namespaceSection okLocalResponse.Namespace ++ verbSection optsLocal.verb
        ++ resourceSection (resourceDisplay optsLocal.resource)
        ++ usersSection okLocalResponse.Users ++ groupsSection okLocalResponse.Groups ∧
    endsWithBlankLine (resourceSection (resourceDisplay optsLocal.resource)) ∧
    endsWithBlankLine (usersSection okLocalResponse.Users) ∧
    endsWithBlankLine (groupsSection okLocalResponse.Groups) ∧
    ¬ endsWithBlankLine (namespaceSection okLocalResponse.Namespace) ∧
    ¬ endsWithBlankLine (verbSection optsLocal.verb)) :=
  ⟨by decide, by decide,
    c8_report_sections optsLocal okLocalResponse (by decide) (by decide)⟩
